import Mathlib

/-!
Verification of the recurrence rule engine of the recurring-date-picker
repository.  The source is a TypeScript store built around three pure
functions: calculatePreviewDates (the occurrence generator),
getNthDayOfMonth (the nth-weekday-of-month resolver) and validateState
(the validator), plus a handful of store actions.

Dates are embedded as civil calendar triples (year, month, day) in the
proleptic Gregorian calendar, with months 1..12.  The JavaScript Date
operations used by the source (date-fns addDays, addWeeks, addMonths,
addYears, startOfWeek, and the Date methods getTime, getDay, getMonth)
are modelled over that triple.  Day numbers are counted from the civil
date 0001-01-01 (day 0, a Monday in the proleptic Gregorian calendar),
and getTime is expressed in milliseconds from the Unix epoch, so that
timestamp comparisons and differences agree with JavaScript for
midnight-normalised dates.

The while loops of the source are unbounded; they are embedded as
fuel-indexed recursions returning an Option, where none means the loop
has not finished within the given fuel.  A run of the source terminates
with result L exactly when some fuel yields some L, and it diverges
exactly when every fuel yields none.
-/

set_option maxRecDepth 40000

namespace RDP

/-- Leap year test of the Gregorian calendar. -/
def isLeap (y : ℤ) : Bool :=
  decide ((y % 4 = 0 ∧ ¬ (y % 100 = 0)) ∨ y % 400 = 0)

/-- Number of days of month m (1..12) of year y. -/
def daysInMonth (y m : ℤ) : ℤ :=
  if m = 2 then (if isLeap y then 29 else 28)
  else if m = 4 ∨ m = 6 ∨ m = 9 ∨ m = 11 then 30
  else 31

/-- Cumulative number of days before month m in a non-leap year. -/
def monthOffset (m : ℤ) : ℤ :=
  if m ≤ 1 then 0 else if m = 2 then 31 else if m = 3 then 59
  else if m = 4 then 90 else if m = 5 then 120 else if m = 6 then 151
  else if m = 7 then 181 else if m = 8 then 212 else if m = 9 then 243
  else if m = 10 then 273 else if m = 11 then 304 else 334

/-- Cumulative number of days before month m of year y. -/
def daysBeforeMonth (y m : ℤ) : ℤ :=
  monthOffset m + (if 3 ≤ m ∧ isLeap y = true then 1 else 0)

/-- Number of days from 0001-01-01 to the first day of year y. -/
def daysBeforeYear (y : ℤ) : ℤ :=
  365 * (y - 1) + (y - 1) / 4 - (y - 1) / 100 + (y - 1) / 400

/-- A civil calendar date, the embedding of a JavaScript Date value
(midnight-normalised, single implicit calendar). -/
structure CDate where
  year : ℤ
  month : ℤ
  day : ℤ
deriving DecidableEq, Repr

/-- Day number of a date, counted from 0001-01-01 (day 0). -/
def toDays (d : CDate) : ℤ :=
  daysBeforeYear d.year + daysBeforeMonth d.year d.month + (d.day - 1)

/-- Day number of the Unix epoch 1970-01-01. -/
def epochDays : ℤ := 719162

/-- Milliseconds from the Unix epoch, the embedding of Date.getTime. -/
def getTime (d : CDate) : ℤ := 86400000 * (toDays d - epochDays)

/-- The source helper validateDate: the value is a real calendar date.
Invalid JavaScript Date values are embedded as out-of-range triples. -/
def validateDate (d : CDate) : Bool :=
  decide (1 ≤ d.month ∧ d.month ≤ 12 ∧ 1 ≤ d.day ∧ d.day ≤ daysInMonth d.year d.month)

/-- The source helper validateDateRange: a null end date is accepted,
otherwise the end date must be valid and not before the start date. -/
def validateDateRange (startDate : CDate) (endDate : Option CDate) : Bool :=
  match endDate with
  | none => true
  | some e => validateDate e && decide (toDays startDate ≤ toDays e)

/-- Successor date: the next day of the calendar. -/
def dateSucc (d : CDate) : CDate :=
  if d.day < daysInMonth d.year d.month then ⟨d.year, d.month, d.day + 1⟩
  else if d.month < 12 then ⟨d.year, d.month + 1, 1⟩
  else ⟨d.year + 1, 1, 1⟩

/-- Predecessor date: the previous day of the calendar. -/
def datePred (d : CDate) : CDate :=
  if 1 < d.day then ⟨d.year, d.month, d.day - 1⟩
  else if 1 < d.month then ⟨d.year, d.month - 1, daysInMonth d.year (d.month - 1)⟩
  else ⟨d.year - 1, 12, 31⟩

/-- date-fns addDays over civil triples. -/
def addDays (d : CDate) (n : ℤ) : CDate :=
  if 0 ≤ n then dateSucc^[n.toNat] d else datePred^[(-n).toNat] d

/-- date-fns addWeeks. -/
def addWeeks (d : CDate) (n : ℤ) : CDate := addDays d (7 * n)

/-- date-fns addMonths: advance the month, clamping the day of month to
the length of the target month. -/
def addMonths (d : CDate) (n : ℤ) : CDate :=
  let t : ℤ := 12 * d.year + (d.month - 1) + n
  let y : ℤ := t / 12
  let m : ℤ := t % 12 + 1
  ⟨y, m, min d.day (daysInMonth y m)⟩

/-- date-fns addYears, which advances by 12 n months with the same
day-of-month clamping (Feb 29 to Feb 28 on non-leap years). -/
def addYears (d : CDate) (n : ℤ) : CDate := addMonths d (12 * n)

/-- Date.getDay: day of week, 0 = Sunday .. 6 = Saturday. -/
def getDay (d : CDate) : ℤ := (toDays d + 1) % 7

/-- date-fns startOfWeek with the default week start (Sunday). -/
def startOfWeek (d : CDate) : CDate := addDays d (-(getDay d))

/-! ## The data model of the store -/

/-- The source type RecurrenceType. -/
inductive RecurrenceType where
  | daily
  | weekly
  | monthly
  | yearly
deriving DecidableEq, Repr

/-- The source type MonthlyRecurrenceType. -/
inductive MonthlyRecurrenceType where
  | dayOfMonth
  | nthDay
deriving DecidableEq, Repr

/-- The source interface NthDayConfig. -/
structure NthDayConfig where
  weekNum : ℤ
  dayOfWeek : ℤ
deriving DecidableEq, Repr

/-- The source interface ValidationError. -/
structure ValidationError where
  field : String
  message : String
deriving DecidableEq, Repr

/-- The data fields of the source interface DatePickerState. -/
structure DatePickerState where
  selectedDate : CDate
  endDate : Option CDate
  recurrenceType : Option RecurrenceType
  recurrenceInterval : ℤ
  selectedDays : List ℤ
  monthlyRecurrenceType : MonthlyRecurrenceType
  nthDayConfig : Option NthDayConfig
  previewDates : List CDate
  errors : List ValidationError
deriving DecidableEq, Repr

/-! ## The nth-weekday-of-month resolver -/

/-- The inner while loop of getNthDayOfMonth: advance one day at a time
until the day of week matches the target.  The source loop is unbounded;
it is modelled with fuel, and fuel 7 is enough for every target in 0..6
since weekdays cycle with period 7. -/
def findWeekday : ℕ → CDate → ℤ → Option CDate
  | 0, _, _ => none
  | fuel + 1, d, target =>
      if getDay d = target then some d else findWeekday fuel (addDays d 1) target

/-- The source function getNthDayOfMonth.  The local weekCount of the
source is initialised to 0 and never changed, as in the source. -/
def getNthDayOfMonth (date : CDate) (weekNum : ℤ) (dayOfWeek : ℤ) : Option CDate :=
  let firstDayOfMonth : CDate := ⟨date.year, date.month, 1⟩
  match findWeekday 7 firstDayOfMonth dayOfWeek with
  | none => none
  | some currentDay =>
      let weekCount : ℤ := 0
      let targetDate := addWeeks currentDay (weekNum - 1)
      if targetDate.month ≠ date.month then some (addWeeks currentDay (weekCount - 1))
      else some targetDate

/-! ## The occurrence generator -/

/-- The maxPreviewDates bound of calculatePreviewDates: with an end date
it is the ceiling of the millisecond difference divided by one day, and
without an end date it is Infinity, modelled as none. -/
def maxPreviewDates (startDate : CDate) : Option CDate → Option ℤ
  | none => none
  | some e => some ((getTime e - getTime startDate + 86399999) / 86400000)

/-- The loop guard comparison dates.length with maxPreviewDates, where
none stands for Infinity. -/
def lengthLt (n : ℕ) : Option ℤ → Bool
  | none => true
  | some c => decide ((n : ℤ) < c)

/-- The emission guard of the source: the candidate is on or after the
start date and, when an end date is present, on or before it. -/
def inRange (startDate : CDate) (endDate : Option CDate) (d : CDate) : Bool :=
  decide (toDays startDate ≤ toDays d) &&
    (match endDate with
     | none => true
     | some e => decide (toDays d ≤ toDays e))

/-- The guard that the cursor has not passed the end date. -/
def cursorOk (endDate : Option CDate) (currentDate : CDate) : Bool :=
  match endDate with
  | none => true
  | some e => decide (toDays currentDate ≤ toDays e)

/-- The inner for loop of the weekly branch: for each selected day,
emit weekStart plus that day when it is in range, breaking out as soon
as the length cap is reached. -/
def weeklyInner (startDate : CDate) (endDate : Option CDate) (cap : Option ℤ)
    (weekStart : CDate) : List ℤ → List CDate → List CDate
  | [], dates => dates
  | day :: rest, dates =>
      let nextDate := addDays weekStart day
      if inRange startDate endDate nextDate then
        let dates2 := dates ++ [nextDate]
        if lengthLt dates2.length cap then
          weeklyInner startDate endDate cap weekStart rest dates2
        else dates2
      else weeklyInner startDate endDate cap weekStart rest dates

/-- The while loop of the weekly branch of calculatePreviewDates. -/
def weeklyLoop (startDate : CDate) (endDate : Option CDate) (cap : Option ℤ)
    (interval : ℤ) (selectedDays : List ℤ) :
    ℕ → CDate → CDate → List CDate → Option (List CDate)
  | 0, _, _, _ => none
  | fuel + 1, currentDate, weekStart, dates =>
      if lengthLt dates.length cap && cursorOk endDate currentDate then
        let dates2 := weeklyInner startDate endDate cap weekStart selectedDays dates
        let weekStart2 := addWeeks weekStart interval
        weeklyLoop startDate endDate cap interval selectedDays fuel weekStart2 weekStart2 dates2
      else some dates

/-- The cursor advance of the second while loop of the source.  The
switch statement has no weekly case, so a weekly cursor is unchanged. -/
def stepDate (recurrenceType : RecurrenceType) (interval : ℤ) (c : CDate) : CDate :=
  match recurrenceType with
  | .daily => addDays c interval
  | .monthly => addMonths c interval
  | .yearly => addYears c interval
  | .weekly => c

/-- The emission step of the body of the second while loop of the
source: the monthly nth-weekday case emits a guarded resolved date, and
every other case emits the cursor itself. -/
def generalPush (startDate : CDate) (rt : RecurrenceType) (endDate : Option CDate)
    (mrt : MonthlyRecurrenceType) (nthDayConfig : Option NthDayConfig)
    (currentDate : CDate) (dates : List CDate) : List CDate :=
  match rt, mrt, nthDayConfig with
  | .monthly, .nthDay, some cfg =>
      match getNthDayOfMonth currentDate cfg.weekNum cfg.dayOfWeek with
      | some nthDate =>
          if inRange startDate endDate nthDate then dates ++ [nthDate] else dates
      | none => dates
  | _, _, _ => dates ++ [currentDate]

/-- The second while loop of calculatePreviewDates, covering the daily,
monthly and yearly kinds (and a weekly kind with no selected days). -/
def generalLoop (startDate : CDate) (rt : RecurrenceType) (interval : ℤ)
    (endDate : Option CDate) (cap : Option ℤ) (mrt : MonthlyRecurrenceType)
    (nthDayConfig : Option NthDayConfig) :
    ℕ → CDate → List CDate → Option (List CDate)
  | 0, _, _ => none
  | fuel + 1, currentDate, dates =>
      if lengthLt dates.length cap && cursorOk endDate currentDate then
        generalLoop startDate rt interval endDate cap mrt nthDayConfig fuel
          (stepDate rt interval currentDate)
          (generalPush startDate rt endDate mrt nthDayConfig currentDate dates)
      else some dates

/-- Insertion step of the final sort of the weekly branch, ordering by
timestamp as the comparator of the source does. -/
def insertSorted (d : CDate) : List CDate → List CDate
  | [] => [d]
  | x :: xs => if getTime d < getTime x then d :: x :: xs else x :: insertSorted d xs

/-- The final sort of the weekly branch of the source. -/
def sortDates (l : List CDate) : List CDate := l.foldr insertSorted []

/-- The source function calculatePreviewDates, with explicit fuel for
its two unbounded while loops.  Returns none when the fuel is exhausted
before a loop exits, so a some result is a finished run of the source. -/
def calculatePreviewDates (fuel : ℕ) (startDate : CDate)
    (recurrenceType : Option RecurrenceType) (interval : ℤ)
    (endDate : Option CDate) (selectedDays : List ℤ)
    (monthlyRecurrenceType : MonthlyRecurrenceType)
    (nthDayConfig : Option NthDayConfig) : Option (List CDate) :=
  match recurrenceType with
  | none => some [startDate]
  | some rt =>
      if validateDate startDate = false then some [startDate]
      else
        let cap := maxPreviewDates startDate endDate
        if rt = .weekly ∧ selectedDays ≠ [] then
          (weeklyLoop startDate endDate cap interval selectedDays fuel startDate
            (startOfWeek startDate) []).map sortDates
        else
          generalLoop startDate rt interval endDate cap monthlyRecurrenceType
            nthDayConfig fuel startDate []

/-! ## The validator and the store actions -/

/-- The source function validateState, restricted to the error list it
builds and returns; the accompanying store write is part of
updatePreviewDates below. -/
def validateState (s : DatePickerState) : List ValidationError :=
  (if validateDate s.selectedDate = false then
      [⟨"startDate", "Invalid start date"⟩] else []) ++
  (match s.endDate with
   | none => []
   | some _ =>
      if validateDateRange s.selectedDate s.endDate = false then
        [⟨"dateRange", "End date must be after start date"⟩] else []) ++
  (if s.recurrenceType = some .weekly ∧ s.selectedDays = [] then
      [⟨"selectedDays", "Select at least one day for weekly recurrence"⟩] else []) ++
  (if s.recurrenceInterval < 1 then
      [⟨"interval", "Interval must be at least 1"⟩] else [])

/-- The store action updatePreviewDates: run validateState (which
stores the error list), stop when errors exist, otherwise recompute the
preview.  Returns none when the generator does not finish within the
fuel. -/
def updatePreviewDates (fuel : ℕ) (s : DatePickerState) : Option DatePickerState :=
  let errors := validateState s
  let s1 := { s with errors := errors }
  if errors.length > 0 then some s1
  else
    match calculatePreviewDates fuel s1.selectedDate s1.recurrenceType
        s1.recurrenceInterval s1.endDate s1.selectedDays
        s1.monthlyRecurrenceType s1.nthDayConfig with
    | none => none
    | some dates => some { s1 with previewDates := dates }

/-- The store action setRecurrenceInterval. -/
def setRecurrenceInterval (fuel : ℕ) (s : DatePickerState) (interval : ℤ) :
    Option DatePickerState :=
  if interval < 1 then
    some { s with errors := [⟨"interval", "Interval must be at least 1"⟩] }
  else updatePreviewDates fuel { s with recurrenceInterval := interval, errors := [] }

/-- The store writes of setRecurrenceType up to, but not including, the
final updatePreviewDates call: set the type, clear the errors, and seed
selectedDays with the weekday of the selected date when switching to
weekly with no day selected. -/
def setRecurrenceTypeCore (s : DatePickerState) (t : Option RecurrenceType) :
    DatePickerState :=
  let s1 := { s with recurrenceType := t, errors := [] }
  if t = some .weekly ∧ s1.selectedDays = [] then
    { s1 with selectedDays := [getDay s1.selectedDate] }
  else s1

/-- The store action setRecurrenceType. -/
def setRecurrenceType (fuel : ℕ) (s : DatePickerState) (t : Option RecurrenceType) :
    Option DatePickerState :=
  updatePreviewDates fuel (setRecurrenceTypeCore s t)

/-! ## Calendar sanity checks

Concrete checks that the calendar embedding matches the real calendar:
known weekdays, the Unix epoch day number, and the month and leap-year
clamping of the date-fns arithmetic. -/

example : getDay ⟨2024, 1, 1⟩ = 1 := by decide
example : getDay ⟨2024, 1, 15⟩ = 1 := by decide
example : getDay ⟨2024, 2, 1⟩ = 4 := by decide
example : getDay ⟨2024, 3, 1⟩ = 5 := by decide
example : getDay ⟨2023, 12, 31⟩ = 0 := by decide
example : toDays ⟨1970, 1, 1⟩ = epochDays := by decide
example : addDays ⟨2024, 1, 30⟩ 3 = ⟨2024, 2, 2⟩ := by decide
example : addDays ⟨2024, 3, 4⟩ (-5) = ⟨2024, 2, 28⟩ := by decide
example : addMonths ⟨2024, 1, 31⟩ 1 = ⟨2024, 2, 29⟩ := by decide
example : addYears ⟨2024, 2, 29⟩ 1 = ⟨2025, 2, 28⟩ := by decide
example : startOfWeek ⟨2024, 1, 1⟩ = ⟨2023, 12, 31⟩ := by decide

/-! ## Calendar arithmetic lemmas -/

theorem isLeap_iff (y : ℤ) :
    isLeap y = true ↔ ((y % 4 = 0 ∧ ¬ (y % 100 = 0)) ∨ y % 400 = 0) := by
  simp [isLeap]

theorem daysInMonth_bounds (y m : ℤ) (h1 : 1 ≤ m) (h2 : m ≤ 12) :
    28 ≤ daysInMonth y m ∧ daysInMonth y m ≤ 31 := by
  unfold daysInMonth
  split_ifs <;> omega

theorem daysBeforeYear_succ (y : ℤ) :
    daysBeforeYear (y + 1) = daysBeforeYear y + (if isLeap y = true then 366 else 365) := by
  have h := isLeap_iff y
  unfold daysBeforeYear
  split_ifs with hl
  · have hp := h.mp hl
    omega
  · have hp : ¬ ((y % 4 = 0 ∧ ¬ (y % 100 = 0)) ∨ y % 400 = 0) := fun p => hl (h.mpr p)
    omega

theorem daysBeforeMonth_succ (y m : ℤ) (h1 : 1 ≤ m) (h2 : m ≤ 11) :
    daysBeforeMonth y (m + 1) = daysBeforeMonth y m + daysInMonth y m := by
  have hm : m = 1 ∨ m = 2 ∨ m = 3 ∨ m = 4 ∨ m = 5 ∨ m = 6 ∨ m = 7 ∨ m = 8 ∨
      m = 9 ∨ m = 10 ∨ m = 11 := by omega
  rcases hm with rfl | rfl | rfl | rfl | rfl | rfl | rfl | rfl | rfl | rfl | rfl <;>
    cases hl : isLeap y <;>
      simp [daysBeforeMonth, monthOffset, daysInMonth, hl]

theorem toDays_mk (y m day : ℤ) : toDays ⟨y, m, day⟩ = toDays ⟨y, m, 1⟩ + (day - 1) := by
  simp only [toDays]
  ring

theorem toDays_firstDay_next (y m : ℤ) (h1 : 1 ≤ m) (h2 : m ≤ 12) :
    toDays ⟨if m = 12 then y + 1 else y, if m = 12 then 1 else m + 1, 1⟩ =
      toDays ⟨y, m, 1⟩ + daysInMonth y m := by
  by_cases h12 : m = 12
  · subst h12
    have hs := daysBeforeYear_succ y
    simp only [if_pos rfl]
    cases hl : isLeap y <;>
      simp [toDays, daysBeforeMonth, monthOffset, daysInMonth, hl] at hs ⊢ <;> omega
  · have hs := daysBeforeMonth_succ y m h1 (by omega)
    simp only [if_neg h12]
    simp [toDays]
    omega

theorem dateSucc_spec (d : CDate) (h : validateDate d = true) :
    toDays (dateSucc d) = toDays d + 1 ∧ validateDate (dateSucc d) = true := by
  obtain ⟨y, m, day⟩ := d
  simp only [validateDate, decide_eq_true_eq] at h
  obtain ⟨h1, h2, h3, h4⟩ := h
  unfold dateSucc
  dsimp only
  split_ifs with hlt h12
  · constructor
    · rw [toDays_mk y m (day + 1), toDays_mk y m day]
      ring
    · simp only [validateDate, decide_eq_true_eq]
      refine ⟨h1, h2, by omega, by omega⟩
  · have hday : day = daysInMonth y m := by omega
    have hs := toDays_firstDay_next y m h1 h2
    have hne : ¬ (m = 12) := by omega
    rw [if_neg hne, if_neg hne] at hs
    have hb := daysInMonth_bounds y (m + 1) (by omega) (by omega)
    constructor
    · rw [toDays_mk y m day, hday, hs]
      omega
    · simp only [validateDate, decide_eq_true_eq]
      exact ⟨by omega, by omega, le_refl 1, by omega⟩
  · have hm : m = 12 := by omega
    subst hm
    have hs := toDays_firstDay_next y 12 (by omega) (by omega)
    rw [if_pos rfl, if_pos rfl] at hs
    have hdim : daysInMonth y 12 = 31 := by simp [daysInMonth]
    have hday : day = 31 := by omega
    constructor
    · rw [toDays_mk y 12 day, hday, hs, hdim]
      omega
    · simp only [validateDate, decide_eq_true_eq]
      refine ⟨by omega, by omega, le_refl 1, ?_⟩
      have := daysInMonth_bounds (y + 1) 1 (by omega) (by omega)
      omega

theorem dateSucc_iterate_spec (k : ℕ) (d : CDate) (h : validateDate d = true) :
    toDays (dateSucc^[k] d) = toDays d + k ∧ validateDate (dateSucc^[k] d) = true := by
  induction k generalizing d with
  | zero => simpa using h
  | succ k ih =>
      have hd := dateSucc_spec d h
      rw [Function.iterate_succ_apply]
      have hk := ih (dateSucc d) hd.2
      refine ⟨?_, hk.2⟩
      rw [hk.1, hd.1]
      push_cast
      ring

theorem addDays_spec (d : CDate) (n : ℤ) (h : validateDate d = true) (hn : 0 ≤ n) :
    toDays (addDays d n) = toDays d + n ∧ validateDate (addDays d n) = true := by
  unfold addDays
  rw [if_pos hn]
  have hk := dateSucc_iterate_spec n.toNat d h
  refine ⟨?_, hk.2⟩
  rw [hk.1, Int.toNat_of_nonneg hn]

/-- First day of the month with absolute month index t (twelve months
per year, index 12 y + m - 1 for month m of year y). -/
def msi (t : ℤ) : CDate := ⟨t / 12, t % 12 + 1, 1⟩

theorem msi_month_bounds (t : ℤ) : 1 ≤ t % 12 + 1 ∧ t % 12 + 1 ≤ 12 := by omega

theorem toDays_msi_succ (t : ℤ) :
    toDays (msi (t + 1)) = toDays (msi t) + daysInMonth (t / 12) (t % 12 + 1) := by
  have hb := msi_month_bounds t
  by_cases h : t % 12 = 11
  · have e1 : (t + 1) / 12 = t / 12 + 1 := by omega
    have e2 : (t + 1) % 12 = 0 := by omega
    have hs := toDays_firstDay_next (t / 12) 12 (by omega) (by omega)
    rw [if_pos rfl, if_pos rfl] at hs
    simp only [msi, e1, e2, h]
    simpa using hs
  · have e1 : (t + 1) / 12 = t / 12 := by omega
    have e2 : (t + 1) % 12 = t % 12 + 1 := by omega
    have hs := toDays_firstDay_next (t / 12) (t % 12 + 1) (by omega) (by omega)
    rw [if_neg (by omega), if_neg (by omega)] at hs
    simp only [msi, e1, e2]
    exact hs

theorem toDays_msi_mono (t : ℤ) (k : ℕ) :
    toDays (msi t) + 28 * k ≤ toDays (msi (t + k)) := by
  induction k with
  | zero => simp
  | succ k ih =>
      have hs := toDays_msi_succ (t + k)
      have hb := msi_month_bounds (t + k)
      have hd := daysInMonth_bounds ((t + (k : ℤ)) / 12) ((t + (k : ℤ)) % 12 + 1)
        (by omega) (by omega)
      have harg : (t + ((k : ℕ) + 1 : ℕ) : ℤ) = (t + k) + 1 := by push_cast; ring
      rw [harg, hs]
      push_cast
      omega

theorem msi_valid (t : ℤ) : validateDate (msi t) = true := by
  have hb := msi_month_bounds t
  have hd := daysInMonth_bounds (t / 12) (t % 12 + 1) (by omega) (by omega)
  simp only [msi, validateDate, decide_eq_true_eq]
  exact ⟨by omega, by omega, le_refl 1, by omega⟩

theorem addMonths_spec (d : CDate) (n : ℤ) (h : validateDate d = true) (hn : 1 ≤ n) :
    toDays d < toDays (addMonths d n) ∧ validateDate (addMonths d n) = true := by
  obtain ⟨y, m, day⟩ := d
  simp only [validateDate, decide_eq_true_eq] at h
  obtain ⟨h1, h2, h3, h4⟩ := h
  have e1 : (12 * y + (m - 1)) / 12 = y := by omega
  have e2 : (12 * y + (m - 1)) % 12 = m - 1 := by omega
  have key : addMonths ⟨y, m, day⟩ n =
      ⟨(12 * y + (m - 1) + n) / 12, (12 * y + (m - 1) + n) % 12 + 1,
        min day (daysInMonth ((12 * y + (m - 1) + n) / 12)
          ((12 * y + (m - 1) + n) % 12 + 1))⟩ := rfl
  have hmb := msi_month_bounds (12 * y + (m - 1) + n)
  have hdim' := daysInMonth_bounds ((12 * y + (m - 1) + n) / 12)
    ((12 * y + (m - 1) + n) % 12 + 1) (by omega) (by omega)
  have hres : toDays (addMonths ⟨y, m, day⟩ n) =
      toDays (msi (12 * y + (m - 1) + n)) +
        (min day (daysInMonth ((12 * y + (m - 1) + n) / 12)
          ((12 * y + (m - 1) + n) % 12 + 1)) - 1) := by
    rw [key, toDays_mk]
    rfl
  have hbase : toDays (msi (12 * y + (m - 1))) = toDays ⟨y, m, 1⟩ := by
    simp only [msi, e1, e2]
    have hm1 : m - 1 + 1 = m := by ring
    rw [hm1]
  have hsucc := toDays_msi_succ (12 * y + (m - 1))
  rw [e1, e2] at hsucc
  have hm1 : m - 1 + 1 = m := by ring
  rw [hm1] at hsucc
  have hmono := toDays_msi_mono (12 * y + (m - 1) + 1) (n - 1).toNat
  have harg : (12 * y + (m - 1) + 1 + ((n - 1).toNat : ℤ)) = 12 * y + (m - 1) + n := by
    rw [Int.toNat_of_nonneg (by omega)]
    ring
  rw [harg] at hmono
  have hday : toDays ⟨y, m, day⟩ = toDays ⟨y, m, 1⟩ + (day - 1) := toDays_mk y m day
  constructor
  · have : (0 : ℤ) ≤ 28 * (n - 1).toNat := by positivity
    omega
  · rw [key]
    simp only [validateDate, decide_eq_true_eq]
    exact ⟨by omega, by omega, by omega, by omega⟩

theorem stepDate_spec (rt : RecurrenceType) (interval : ℤ) (c : CDate)
    (h : validateDate c = true) (hi : 1 ≤ interval) :
    toDays c ≤ toDays (stepDate rt interval c) ∧
      validateDate (stepDate rt interval c) = true := by
  cases rt with
  | daily =>
      have hs := addDays_spec c interval h (by omega)
      simp only [stepDate]
      exact ⟨by omega, hs.2⟩
  | weekly => exact ⟨le_refl _, h⟩
  | monthly =>
      have hs := addMonths_spec c interval h hi
      simp only [stepDate]
      exact ⟨by omega, hs.2⟩
  | yearly =>
      have hs := addMonths_spec c (12 * interval) h (by omega)
      simp only [stepDate, addYears]
      exact ⟨by omega, hs.2⟩

/-! ## Loop lemmas -/

theorem lengthLt_none (n : ℕ) : lengthLt n none = true := rfl

theorem cursorOk_none (c : CDate) : cursorOk none c = true := rfl

theorem weeklyLoop_none_none (startDate : CDate) (interval : ℤ) (selectedDays : List ℤ) :
    ∀ (fuel : ℕ) (currentDate weekStart : CDate) (dates : List CDate),
      weeklyLoop startDate none none interval selectedDays fuel
        currentDate weekStart dates = none := by
  intro fuel
  induction fuel with
  | zero => intro c w ds; rfl
  | succ fuel ih =>
      intro c w ds
      rw [weeklyLoop, if_pos (show (lengthLt ds.length none && cursorOk none c) = true from rfl)]
      exact ih _ _ _

theorem generalLoop_none_none (startDate : CDate) (rt : RecurrenceType) (interval : ℤ)
    (mrt : MonthlyRecurrenceType) (cfg : Option NthDayConfig) :
    ∀ (fuel : ℕ) (currentDate : CDate) (dates : List CDate),
      generalLoop startDate rt interval none none mrt cfg fuel currentDate dates = none := by
  intro fuel
  induction fuel with
  | zero => intro c ds; rfl
  | succ fuel ih =>
      intro c ds
      rw [generalLoop, if_pos (show (lengthLt ds.length none && cursorOk none c) = true from rfl)]
      exact ih _ _

theorem inRange_eq (startDate : CDate) (endDate : Option CDate) (d : CDate) :
    inRange startDate endDate d = (decide (toDays startDate ≤ toDays d) && cursorOk endDate d) := by
  cases endDate <;> rfl

theorem inRange_some_iff (s e d : CDate) :
    inRange s (some e) d = true ↔ toDays s ≤ toDays d ∧ toDays d ≤ toDays e := by
  simp [inRange]

theorem mem_insertSorted (d x : CDate) (l : List CDate) :
    x ∈ insertSorted d l ↔ x = d ∨ x ∈ l := by
  induction l with
  | nil => simp [insertSorted]
  | cons a l ih =>
      unfold insertSorted
      split_ifs with h
      · constructor
        · intro hx
          rcases List.mem_cons.mp hx with h1 | h1
          · exact Or.inl h1
          · exact Or.inr h1
        · intro hx
          rcases hx with h1 | h1
          · exact List.mem_cons.mpr (Or.inl h1)
          · exact List.mem_cons.mpr (Or.inr h1)
      · constructor
        · intro hx
          rcases List.mem_cons.mp hx with h1 | h1
          · exact Or.inr (List.mem_cons.mpr (Or.inl h1))
          · rcases (ih.mp h1) with h2 | h2
            · exact Or.inl h2
            · exact Or.inr (List.mem_cons.mpr (Or.inr h2))
        · intro hx
          rcases hx with h1 | h1
          · exact List.mem_cons.mpr (Or.inr (ih.mpr (Or.inl h1)))
          · rcases List.mem_cons.mp h1 with h2 | h2
            · exact List.mem_cons.mpr (Or.inl h2)
            · exact List.mem_cons.mpr (Or.inr (ih.mpr (Or.inr h2)))

theorem mem_sortDates (x : CDate) (l : List CDate) : x ∈ sortDates l ↔ x ∈ l := by
  induction l with
  | nil => simp [sortDates]
  | cons a l ih =>
      simp only [sortDates, List.foldr_cons] at *
      rw [mem_insertSorted, ih]
      simp

theorem weeklyInner_mem (startDate : CDate) (endDate : Option CDate) (cap : Option ℤ)
    (weekStart : CDate) (d : CDate) :
    ∀ (days : List ℤ) (dates : List CDate),
      d ∈ weeklyInner startDate endDate cap weekStart days dates →
      d ∈ dates ∨ inRange startDate endDate d = true := by
  intro days
  induction days with
  | nil => intro dates hd; exact Or.inl hd
  | cons day rest ih =>
      intro dates hd
      simp only [weeklyInner] at hd
      split_ifs at hd with h1 h2
      · rcases ih _ hd with h | h
        · rcases List.mem_append.mp h with h3 | h3
          · exact Or.inl h3
          · rw [List.mem_singleton.mp h3]
            exact Or.inr h1
        · exact Or.inr h
      · rcases List.mem_append.mp hd with h3 | h3
        · exact Or.inl h3
        · rw [List.mem_singleton.mp h3]
          exact Or.inr h1
      · exact ih _ hd

theorem weeklyLoop_inv (startDate : CDate) (endDate : Option CDate) (cap : Option ℤ)
    (interval : ℤ) (selectedDays : List ℤ) :
    ∀ (fuel : ℕ) (c w : CDate) (dates L : List CDate),
      (∀ x ∈ dates, inRange startDate endDate x = true) →
      weeklyLoop startDate endDate cap interval selectedDays fuel c w dates = some L →
      ∀ x ∈ L, inRange startDate endDate x = true := by
  intro fuel
  induction fuel with
  | zero => intro c w dates L _ hL; cases hL
  | succ fuel ih =>
      intro c w dates L hinv hL
      rw [weeklyLoop] at hL
      by_cases hg : (lengthLt dates.length cap && cursorOk endDate c) = true
      · rw [hg] at hL
        simp only [if_true] at hL
        refine ih _ _ _ _ ?_ hL
        intro x hx
        rcases weeklyInner_mem startDate endDate cap w x selectedDays dates hx with h | h
        · exact hinv x h
        · exact h
      · rw [Bool.not_eq_true] at hg
        rw [hg, if_neg (by simp), Option.some.injEq] at hL
        subst hL
        exact hinv

theorem generalPush_mem (startDate : CDate) (rt : RecurrenceType) (endDate : Option CDate)
    (mrt : MonthlyRecurrenceType) (cfg : Option NthDayConfig) (currentDate : CDate)
    (dates : List CDate) (x : CDate)
    (hx : x ∈ generalPush startDate rt endDate mrt cfg currentDate dates) :
    x ∈ dates ∨ x = currentDate ∨ inRange startDate endDate x = true := by
  have hcons : ∀ h : x ∈ dates ++ [currentDate],
      x ∈ dates ∨ x = currentDate ∨ inRange startDate endDate x = true := by
    intro h
    rcases List.mem_append.mp h with h1 | h1
    · exact Or.inl h1
    · exact Or.inr (Or.inl (List.mem_singleton.mp h1))
  rcases rt with _ | _ | _ | _ <;> rcases mrt with _ | _ <;> rcases cfg with _ | cfgv <;>
      simp only [generalPush] at hx <;>
    first
    | exact hcons hx
    | (rcases hnth : getNthDayOfMonth currentDate cfgv.weekNum cfgv.dayOfWeek with _ | nthDate <;>
          rw [hnth] at hx <;> dsimp only at hx
       · exact Or.inl hx
       · by_cases hr : inRange startDate endDate nthDate = true
         · rw [if_pos hr] at hx
           rcases List.mem_append.mp hx with h1 | h1
           · exact Or.inl h1
           · rw [List.mem_singleton.mp h1]
             exact Or.inr (Or.inr hr)
         · rw [Bool.not_eq_true] at hr
           rw [hr, if_neg (by simp)] at hx
           exact Or.inl hx)

theorem generalLoop_inv (startDate : CDate) (rt : RecurrenceType) (interval : ℤ)
    (endDate : Option CDate) (cap : Option ℤ) (mrt : MonthlyRecurrenceType)
    (cfg : Option NthDayConfig) (hi : 1 ≤ interval) :
    ∀ (fuel : ℕ) (c : CDate) (dates L : List CDate),
      validateDate c = true → toDays startDate ≤ toDays c →
      (∀ x ∈ dates, inRange startDate endDate x = true) →
      generalLoop startDate rt interval endDate cap mrt cfg fuel c dates = some L →
      ∀ x ∈ L, inRange startDate endDate x = true := by
  intro fuel
  induction fuel with
  | zero => intro c dates L _ _ _ hL; cases hL
  | succ fuel ih =>
      intro c dates L hc hsc hinv hL
      rw [generalLoop] at hL
      by_cases hg : (lengthLt dates.length cap && cursorOk endDate c) = true
      · rw [hg, if_pos rfl] at hL
        have hcur : cursorOk endDate c = true := by
          simp only [Bool.and_eq_true] at hg
          exact hg.2
        have hcrange : inRange startDate endDate c = true := by
          rw [inRange_eq, hcur, Bool.and_true, decide_eq_true_eq]
          exact hsc
        have hstep := stepDate_spec rt interval c hc hi
        refine ih _ _ _ hstep.2 (le_trans hsc hstep.1) ?_ hL
        intro x hx
        rcases generalPush_mem startDate rt endDate mrt cfg c dates x hx with h | h | h
        · exact hinv x h
        · rw [h]; exact hcrange
        · exact h
      · rw [Bool.not_eq_true] at hg
        rw [hg, if_neg (by simp), Option.some.injEq] at hL
        subst hL
        exact hinv

/-! ## Validator lemmas -/

theorem validateState_nil (s : DatePickerState) (h : validateState s = []) :
    validateDate s.selectedDate = true ∧
      validateDateRange s.selectedDate s.endDate = true ∧
      1 ≤ s.recurrenceInterval := by
  unfold validateState at h
  simp only [List.append_eq_nil] at h
  obtain ⟨⟨⟨h1, h2⟩, h3⟩, h4⟩ := h
  refine ⟨?_, ?_, ?_⟩
  · rcases Bool.eq_false_or_eq_true (validateDate s.selectedDate) with hv | hv
    · exact hv
    · rw [if_pos hv] at h1
      simp at h1
  · cases hE : s.endDate with
    | none => rfl
    | some e =>
        rw [hE] at h2
        dsimp only at h2
        rcases Bool.eq_false_or_eq_true (validateDateRange s.selectedDate (some e)) with hv | hv
        · exact hv
        · rw [if_pos hv] at h2
          simp at h2
  · rcases lt_or_le s.recurrenceInterval 1 with hi | hi
    · rw [if_pos hi] at h4
      simp at h4
    · exact hi

theorem updatePreviewDates_selectedDays (fuel : ℕ) (t s' : DatePickerState)
    (h : updatePreviewDates fuel t = some s') : s'.selectedDays = t.selectedDays := by
  simp only [updatePreviewDates] at h
  split_ifs at h
  · cases h
    rfl
  · rcases hc : calculatePreviewDates fuel t.selectedDate t.recurrenceType
        t.recurrenceInterval t.endDate t.selectedDays t.monthlyRecurrenceType
        t.nthDayConfig with _ | dates <;> rw [hc] at h
    · cases h
    · cases h
      rfl

/-! ## The claims -/

/-- Claim C1, refuted: with a recurrence kind set and no end date,
calculatePreviewDates does not terminate, let alone cap its output at a
fixed ceiling.  maxPreviewDates is Infinity and the loop guards never
become false, so for every fuel value the run of the source loop is
still unfinished (none). -/
theorem calculatePreviewDates_no_endDate_diverges (fuel : ℕ) (startDate : CDate)
    (rt : RecurrenceType) (interval : ℤ) (selectedDays : List ℤ)
    (mrt : MonthlyRecurrenceType) (cfg : Option NthDayConfig)
    (h : validateDate startDate = true) :
    calculatePreviewDates fuel startDate (some rt) interval none selectedDays
      mrt cfg = none := by
  simp only [calculatePreviewDates, maxPreviewDates, h]
  rw [if_neg (by simp)]
  by_cases hw : rt = RecurrenceType.weekly ∧ selectedDays ≠ []
  · rw [if_pos hw, weeklyLoop_none_none]
    rfl
  · rw [if_neg hw, generalLoop_none_none]

/-- Witness for C1: a concrete daily rule with no end date is still
unfinished after 50 loop iterations. -/
theorem calculatePreviewDates_no_endDate_diverges_witness :
    calculatePreviewDates 50 ⟨2024, 1, 1⟩ (some RecurrenceType.daily) 1 none []
      MonthlyRecurrenceType.dayOfMonth none = none :=
  calculatePreviewDates_no_endDate_diverges 50 ⟨2024, 1, 1⟩ RecurrenceType.daily 1 []
    MonthlyRecurrenceType.dayOfMonth none (by decide)

/-- Claim C2, refuted at a concrete input: for the March 2024 anchor
and weekday 4 (Thursday), the resolver with weekOrdinal 5 returns
2024-02-29, a Thursday of the previous month, not the last Thursday
inside March (which is 2024-03-28).  The vestigial weekCount variable
of the source makes the fallback subtract one week from the first
match instead of walking back from the overshoot. -/
theorem getNthDayOfMonth_ordinal5_leaves_month :
    getNthDayOfMonth ⟨2024, 3, 1⟩ 5 4 = some ⟨2024, 2, 29⟩ ∧
      (⟨2024, 2, 29⟩ : CDate).month ≠ (⟨2024, 3, 1⟩ : CDate).month ∧
      getDay ⟨2024, 3, 28⟩ = 4 ∧ (⟨2024, 3, 28⟩ : CDate).month = 3 := by
  refine ⟨by decide, by decide, by decide, rfl⟩

/-- Claim C3, refuted at a concrete input: a configuration that passes
validateState (monthly nth-weekday rule, weekOrdinal 5, weekday 4,
February to March 2024) generates the date 2024-02-29 twice, so the
returned sequence contains duplicate dates. -/
theorem calculatePreviewDates_duplicate_dates :
    validateState ⟨⟨2024, 2, 1⟩, some ⟨2024, 3, 31⟩, some RecurrenceType.monthly, 1, [],
        MonthlyRecurrenceType.nthDay, some ⟨5, 4⟩, [], []⟩ = [] ∧
      calculatePreviewDates 10 ⟨2024, 2, 1⟩ (some RecurrenceType.monthly) 1
        (some ⟨2024, 3, 31⟩) [] MonthlyRecurrenceType.nthDay (some ⟨5, 4⟩) =
        some [⟨2024, 2, 29⟩, ⟨2024, 2, 29⟩] := by
  refine ⟨by decide, by decide⟩

/-- Claim C4, refuted at a concrete input: for a valid daily rule with
interval 1 from 2024-01-01 to 2024-01-03, the generator stops at the
length cap of 2 and omits the end date 2024-01-03 even though it is
within range; with startDate equal to endDate the cap is 0 and the
result is empty. -/
theorem calculatePreviewDates_daily_truncated :
    validateState ⟨⟨2024, 1, 1⟩, some ⟨2024, 1, 3⟩, some RecurrenceType.daily, 1, [],
        MonthlyRecurrenceType.dayOfMonth, none, [], []⟩ = [] ∧
      calculatePreviewDates 10 ⟨2024, 1, 1⟩ (some RecurrenceType.daily) 1
        (some ⟨2024, 1, 3⟩) [] MonthlyRecurrenceType.dayOfMonth none =
        some [⟨2024, 1, 1⟩, ⟨2024, 1, 2⟩] ∧
      calculatePreviewDates 10 ⟨2024, 1, 1⟩ (some RecurrenceType.daily) 1
        (some ⟨2024, 1, 1⟩) [] MonthlyRecurrenceType.dayOfMonth none = some [] := by
  refine ⟨by decide, by decide, by decide⟩

/-- Claim C5: for every state that passes validateState and has an end
date, every date of a finished run of calculatePreviewDates lies
between the start date and the end date. -/
theorem calculatePreviewDates_within_bounds (s : DatePickerState) (e : CDate)
    (hv : validateState s = []) (he : s.endDate = some e) (fuel : ℕ) (L : List CDate)
    (hL : calculatePreviewDates fuel s.selectedDate s.recurrenceType
        s.recurrenceInterval s.endDate s.selectedDays s.monthlyRecurrenceType
        s.nthDayConfig = some L) :
    ∀ d ∈ L, toDays s.selectedDate ≤ toDays d ∧ toDays d ≤ toDays e := by
  obtain ⟨hstart, hrange, hint⟩ := validateState_nil s hv
  rw [he] at hrange
  have hre : validateDate e = true ∧ toDays s.selectedDate ≤ toDays e := by
    simpa [validateDateRange, Bool.and_eq_true, decide_eq_true_eq] using hrange
  intro d hd
  unfold calculatePreviewDates at hL
  cases hrt : s.recurrenceType with
  | none =>
      rw [hrt] at hL
      dsimp only at hL
      rw [Option.some.injEq] at hL
      subst hL
      rw [List.mem_singleton.mp hd]
      exact ⟨le_refl _, hre.2⟩
  | some rt =>
      rw [hrt] at hL
      dsimp only at hL
      rw [if_neg (by simp [hstart]), he] at hL
      by_cases hw : rt = RecurrenceType.weekly ∧ s.selectedDays ≠ []
      · rw [if_pos hw] at hL
        obtain ⟨L0, hL0, hsort⟩ := Option.map_eq_some'.mp hL
        have hmem : d ∈ L0 := (mem_sortDates d L0).mp (hsort ▸ hd)
        have hr := weeklyLoop_inv s.selectedDate (some e)
          (maxPreviewDates s.selectedDate (some e)) s.recurrenceInterval s.selectedDays
          fuel s.selectedDate (startOfWeek s.selectedDate) [] L0
          (by intro x hx; cases hx) hL0 d hmem
        exact (inRange_some_iff _ _ _).mp hr
      · rw [if_neg hw] at hL
        have hr := generalLoop_inv s.selectedDate rt s.recurrenceInterval (some e)
          (maxPreviewDates s.selectedDate (some e)) s.monthlyRecurrenceType
          s.nthDayConfig hint fuel s.selectedDate [] L hstart (le_refl _)
          (by intro x hx; cases hx) hL d hd
        exact (inRange_some_iff _ _ _).mp hr

/-- Witness for C5 at a concrete daily configuration. -/
theorem calculatePreviewDates_within_bounds_witness :
    toDays (⟨2024, 1, 1⟩ : CDate) ≤ toDays (⟨2024, 1, 2⟩ : CDate) ∧
      toDays (⟨2024, 1, 2⟩ : CDate) ≤ toDays (⟨2024, 1, 3⟩ : CDate) :=
  calculatePreviewDates_within_bounds
    ⟨⟨2024, 1, 1⟩, some ⟨2024, 1, 3⟩, some RecurrenceType.daily, 1, [],
      MonthlyRecurrenceType.dayOfMonth, none, [], []⟩
    ⟨2024, 1, 3⟩ (by decide) rfl 10 [⟨2024, 1, 1⟩, ⟨2024, 1, 2⟩] (by decide)
    ⟨2024, 1, 2⟩ (by decide)

/-- Claim C6: the weekly example of the specification.  With start
2024-01-01 (a Monday), weekly recurrence, interval 1, weekdays Monday
and Wednesday, end 2024-01-15, the generator returns exactly the five
expected dates. -/
theorem calculatePreviewDates_weekly_example :
    calculatePreviewDates 10 ⟨2024, 1, 1⟩ (some RecurrenceType.weekly) 1
      (some ⟨2024, 1, 15⟩) [1, 3] MonthlyRecurrenceType.dayOfMonth none =
      some [⟨2024, 1, 1⟩, ⟨2024, 1, 3⟩, ⟨2024, 1, 8⟩, ⟨2024, 1, 10⟩, ⟨2024, 1, 15⟩] := by
  decide

/-- Claim C7: validateState reports an error on the selectedDays field
exactly when the recurrence kind is weekly and the weekday set is
empty. -/
theorem validateState_selectedDays_iff (s : DatePickerState) :
    (∃ err ∈ validateState s, err.field = "selectedDays") ↔
      s.recurrenceType = some RecurrenceType.weekly ∧ s.selectedDays = [] := by
  unfold validateState
  cases hE : s.endDate <;> split_ifs with h1 h2 h3 <;> simp_all

/-- Claim C8: when validateState reports any error, updatePreviewDates
returns before recomputing the preview, so previewDates is exactly the
previously stored list (only the errors field changes). -/
theorem updatePreviewDates_error_keeps_preview (s : DatePickerState)
    (h : validateState s ≠ []) (fuel : ℕ) :
    updatePreviewDates fuel s = some { s with errors := validateState s } ∧
      ({ s with errors := validateState s } : DatePickerState).previewDates =
        s.previewDates := by
  refine ⟨?_, rfl⟩
  simp only [updatePreviewDates]
  rw [if_pos (by simpa using List.length_pos.mpr h)]

/-- Witness for C8: a weekly state with no selected days keeps its
stored preview. -/
theorem updatePreviewDates_error_keeps_preview_witness :
    ∃ s', updatePreviewDates 3
        ⟨⟨2024, 1, 1⟩, none, some RecurrenceType.weekly, 1, [],
          MonthlyRecurrenceType.dayOfMonth, none, [⟨2024, 1, 1⟩], []⟩ = some s' ∧
      s'.previewDates = [⟨2024, 1, 1⟩] := by
  have h := updatePreviewDates_error_keeps_preview
    ⟨⟨2024, 1, 1⟩, none, some RecurrenceType.weekly, 1, [],
      MonthlyRecurrenceType.dayOfMonth, none, [⟨2024, 1, 1⟩], []⟩ (by decide) 3
  exact ⟨_, h.1, rfl⟩

/-- Claim C9: setRecurrenceInterval with a value below 1 records
exactly the single interval error and changes nothing else: the stored
interval and the stored preview are untouched. -/
theorem setRecurrenceInterval_rejects_invalid (fuel : ℕ) (s : DatePickerState) (v : ℤ)
    (h : v < 1) :
    setRecurrenceInterval fuel s v =
        some { s with errors := [⟨"interval", "Interval must be at least 1"⟩] } ∧
      ({ s with errors := [⟨"interval", "Interval must be at least 1"⟩] } :
          DatePickerState).recurrenceInterval = s.recurrenceInterval ∧
      ({ s with errors := [⟨"interval", "Interval must be at least 1"⟩] } :
          DatePickerState).previewDates = s.previewDates := by
  refine ⟨?_, rfl, rfl⟩
  simp only [setRecurrenceInterval]
  rw [if_pos h]

/-- Witness for C9 at interval 0. -/
theorem setRecurrenceInterval_rejects_invalid_witness :
    ∃ s', setRecurrenceInterval 0
        ⟨⟨2024, 1, 1⟩, none, some RecurrenceType.daily, 1, [],
          MonthlyRecurrenceType.dayOfMonth, none, [⟨2024, 1, 1⟩], []⟩ 0 = some s' ∧
      s'.errors = [⟨"interval", "Interval must be at least 1"⟩] ∧
      s'.recurrenceInterval = 1 ∧ s'.previewDates = [⟨2024, 1, 1⟩] := by
  have h := setRecurrenceInterval_rejects_invalid 0
    ⟨⟨2024, 1, 1⟩, none, some RecurrenceType.daily, 1, [],
      MonthlyRecurrenceType.dayOfMonth, none, [⟨2024, 1, 1⟩], []⟩ 0 (by decide)
  exact ⟨_, h.1, rfl, rfl, rfl⟩

/-- Claim C10: switching to weekly recurrence on a state with an empty
weekday set seeds selectedDays with the weekday (0..6) of the selected
date, so the weekly invariant (non-empty weekday set) holds right after
the store writes, and still holds in any finished full action. -/
theorem setRecurrenceType_weekly_seeds_days (s : DatePickerState)
    (h : s.selectedDays = []) :
    (setRecurrenceTypeCore s (some RecurrenceType.weekly)).selectedDays =
        [getDay s.selectedDate] ∧
      (setRecurrenceTypeCore s (some RecurrenceType.weekly)).recurrenceType =
        some RecurrenceType.weekly ∧
      0 ≤ getDay s.selectedDate ∧ getDay s.selectedDate < 7 ∧
      (∀ (fuel : ℕ) (s' : DatePickerState),
        setRecurrenceType fuel s (some RecurrenceType.weekly) = some s' →
        s'.selectedDays = [getDay s.selectedDate]) := by
  have hsel : (setRecurrenceTypeCore s (some RecurrenceType.weekly)).selectedDays =
      [getDay s.selectedDate] := by
    simp only [setRecurrenceTypeCore]
    rw [if_pos ⟨trivial, h⟩]
  have hrt : (setRecurrenceTypeCore s (some RecurrenceType.weekly)).recurrenceType =
      some RecurrenceType.weekly := by
    simp only [setRecurrenceTypeCore]
    rw [if_pos ⟨trivial, h⟩]
  refine ⟨hsel, hrt, ?_, ?_, ?_⟩
  · unfold getDay
    omega
  · unfold getDay
    omega
  · intro fuel s' hs'
    unfold setRecurrenceType at hs'
    rw [updatePreviewDates_selectedDays fuel _ s' hs', hsel]

/-- Witness for C10: 2024-01-05 is a Friday (day 5). -/
theorem setRecurrenceType_weekly_seeds_days_witness :
    (setRecurrenceTypeCore
        ⟨⟨2024, 1, 5⟩, none, none, 1, [], MonthlyRecurrenceType.dayOfMonth, none, [], []⟩
        (some RecurrenceType.weekly)).selectedDays = [5] := by
  have h := setRecurrenceType_weekly_seeds_days
    ⟨⟨2024, 1, 5⟩, none, none, 1, [], MonthlyRecurrenceType.dayOfMonth, none, [], []⟩ rfl
  rw [h.1]
  decide

end RDP
